import Mathlib

/-!
# Verification of the organizeme scanner / Git-status enrichment pipeline

Shallow embedding of `src/lib/project-scanner.ts` and `src/lib/git-utils.ts`
(plus the data model from `src/app/page.tsx`).  JavaScript `Date` values are
modelled as `Int` millisecond timestamps (`Date.getTime()`); the impure
`new Date()` reads are made explicit parameters.  Fallible filesystem / git
calls are modelled with `Except String` oracles supplied as inputs.
-/

set_option autoImplicit false

namespace Organizeme

/-- `ProjectStatus` from `src/app/page.tsx`:
`'active' | 'stale' | 'clean' | 'dirty' | 'unknown'`. -/
inductive ProjectStatus where
  | active
  | stale
  | clean
  | dirty
  | unknown
  deriving DecidableEq, Repr

/-- `GitInfo` from `src/app/page.tsx`.  `lastCommitDate : Option Int` models the
optional `Date` field as a millisecond timestamp. -/
structure GitInfo where
  branch : String
  isDirty : Bool
  uncommittedChanges : Nat
  aheadBy : Nat
  behindBy : Nat
  lastCommitDate : Option Int
  lastCommitMessage : Option String
  deriving DecidableEq, Repr

/-- Milliseconds in a day, the divisor `1000 * 60 * 60 * 24` used by
`determineProjectStatus`. -/
def msPerDay : Int := 1000 * 60 * 60 * 24

/-- The JS float expression `(now.getTime() - ref.getTime()) / (1000*60*60*24)`
as an exact rational (exact arithmetic agrees with float64 on the 7/30-day
boundary comparisons for integer millisecond differences). -/
def daysBetween (now ref : Int) : ℚ := ((now - ref : Int) : ℚ) / (msPerDay : ℚ)

/-- `determineProjectStatus` from `src/lib/git-utils.ts` (lines 125–160).
The `new Date()` read inside the function body is the explicit `now`
parameter. -/
def determineProjectStatus (gitInfo : Option GitInfo) (lastModified : Int)
    (now : Int) : ProjectStatus :=
  match gitInfo with
  | some gi =>
    if gi.isDirty then .dirty
    else
      let referenceDate := gi.lastCommitDate.getD lastModified
      let daysSinceActivity := daysBetween now referenceDate
      if daysSinceActivity ≤ 7 then .active
      else if daysSinceActivity > 30 then .stale
      else .clean
  | none =>
    let daysSinceModified := daysBetween now lastModified
    if daysSinceModified ≤ 7 then .active
    else if daysSinceModified > 30 then .stale
    else .unknown

/-- The reference classification written from the words of spec §4.2: rule 1
(no repo info → active / stale / unknown by recency of `lastModified`),
rule 2 (dirty wins unconditionally), rule 3 (clean → active / stale / clean by
recency of `lastCommitAt ?? lastModified`), with `daysSince ≤ 7 → active` and
`daysSince > 30 → stale` exact. -/
def specClassify (repoInfo : Option GitInfo) (lastModified : Int)
    (now : Int) : ProjectStatus :=
  match repoInfo with
  | none =>
    let daysSince := daysBetween now lastModified
    if daysSince ≤ 7 then .active
    else if daysSince > 30 then .stale
    else .unknown
  | some info =>
    if info.isDirty then .dirty
    else
      let reference := info.lastCommitDate.getD lastModified
      let daysSince := daysBetween now reference
      if daysSince ≤ 7 then .active
      else if daysSince > 30 then .stale
      else .clean

/-- A concrete clean `GitInfo` with no recorded commit date, reused by
several examples below. -/
def cleanNoCommit : GitInfo :=
  { branch := "main", isDirty := false, uncommittedChanges := 0,
    aheadBy := 0, behindBy := 0, lastCommitDate := none,
    lastCommitMessage := none }

/-- The `Project` record built by `scanProject` in `src/lib/project-scanner.ts`
(shape declared in `src/app/page.tsx`, plus the `tags` field the scanner
attaches).  `lastModified` is the directory mtime in milliseconds. -/
structure Project where
  id : String
  name : String
  path : String
  description : Option String
  status : ProjectStatus
  lastModified : Int
  gitInfo : Option GitInfo
  hasPackageJson : Bool
  hasReadme : Bool
  tags : List String
  deriving DecidableEq, Repr

/-- `GetGitStatusResult` from `src/lib/git-utils.ts`: either a `GitInfo` or an
error string (the two-field duck-typed union, as a sum). -/
inductive GetGitStatusResult where
  | ok (gitInfo : GitInfo)
  | err (error : String)
  deriving DecidableEq, Repr

/-- Whether a `getGitStatus` result is the error variant. -/
def GetGitStatusResult.isErr : GetGitStatusResult → Bool
  | .ok _ => false
  | .err _ => true

/-- The `simple-git` `StatusResult` fields read by `getGitStatus`:
`current` (branch, nullable), `isClean()`, `files.length`, `ahead`, `behind`. -/
structure StatusResult where
  current : Option String
  isClean : Bool
  filesLength : Nat
  ahead : Nat
  behind : Nat
  deriving DecidableEq, Repr

/-- The latest-commit data read from `git.log({maxCount: 1}).latest`:
a nullable record with a (truthy-or-absent) `date` and a `message`. -/
structure LogLatest where
  date : Option Int
  message : String
  deriving DecidableEq, Repr

/-- Oracle for the external `simple-git` calls made by `getGitStatus`; each
call either returns a value or throws (models the library, which is not part
of this repository). -/
structure GitOracle where
  checkIsRepo : String → Except String Bool
  status : String → Except String StatusResult
  log : String → Except String (Option LogLatest)

/-- `getGitStatus` from `src/lib/git-utils.ts` (lines 69–109): repo check
first, then status and latest log merged into a `GitInfo`; every thrown
error is caught and returned as `Failed to get Git status: …`. -/
def getGitStatus (git : GitOracle) (projectPath : String) : GetGitStatusResult :=
  match git.checkIsRepo projectPath with
  | .error msg => .err ("Failed to get Git status: " ++ msg)
  | .ok false => .err "Not a Git repository"
  | .ok true =>
    match git.status projectPath, git.log projectPath with
    | .error msg, _ => .err ("Failed to get Git status: " ++ msg)
    | .ok _, .error msg => .err ("Failed to get Git status: " ++ msg)
    | .ok status, .ok log =>
      let lastCommit := log
      .ok { branch := match status.current with
              | some s => if s = "" then "HEAD" else s
              | none => "HEAD"
            isDirty := !status.isClean
            uncommittedChanges := status.filesLength
            aheadBy := status.ahead
            behindBy := status.behind
            lastCommitDate := lastCommit.bind (·.date)
            lastCommitMessage := lastCommit.map (·.message) }

/-- Body of `enrichProjectsWithGitInfo`, with the record index made explicit:
`clock i` is the pair of `new Date()` reads made while record `i` is
processed — `(clock i).1` is the `new Date()` passed to
`determineProjectStatus` as its `lastModified` argument, `(clock i).2` the
`new Date()` read inside `determineProjectStatus` itself. -/
def enrichGo (getStatusO : String → GetGitStatusResult)
    (clock : Nat → Int × Int) : Nat → List Project → List Project
  | _, [] => []
  | i, project :: rest =>
    (match getStatusO project.path with
     | .ok gi =>
       { project with
         gitInfo := some gi
         status := determineProjectStatus (some gi) (clock i).1 (clock i).2 }
     | .err _ => project) :: enrichGo getStatusO clock (i + 1) rest

/-- `enrichProjectsWithGitInfo` from `src/lib/git-utils.ts` (lines 206–227):
per project, `getGitStatus(project.path)`; on success attach the `gitInfo`
and recompute `status` as `determineProjectStatus(result.gitInfo, new Date())`
(note: `new Date()`, not `project.lastModified`, is passed as the fallback
reference). -/
def enrichProjectsWithGitInfo (getStatusO : String → GetGitStatusResult)
    (clock : Nat → Int × Int) (projects : List Project) : List Project :=
  enrichGo getStatusO clock 0 projects

/-- A concrete scanner record for a directory last touched at time 0,
enriched 40 days later. -/
def oldProject : Project :=
  { id := "old-project", name := "old-project", path := "/projects/old-project",
    description := none, status := .stale, lastModified := 0,
    gitInfo := none, hasPackageJson := true, hasReadme := false, tags := [] }

/-! ## `createProjectId` (`src/lib/project-scanner.ts`, lines 121–127)

`name.toLowerCase().replace(/[^a-z0-9-_]/g,'-').replace(/[-]+/g,'-').replace(/^[-]|[-]$/g,'')`
modelled character-by-character: the first regex replaces every character
outside the class `[a-z0-9-_]` by `-`; the second collapses every run of `-`
to a single `-`; the third deletes a `-` at position 0 and a `-` at the final
position.  `toLowerCase` is modelled by `Char.toLower` (ASCII case map). -/

/-- Membership in the regex character class `[a-z0-9-_]`, by code point. -/
def isSlugChar (c : Char) : Bool :=
  (97 ≤ c.toNat && c.toNat ≤ 122) || (48 ≤ c.toNat && c.toNat ≤ 57) ||
    c.toNat = 45 || c.toNat = 95

/-- `.replace(/[^a-z0-9-_]/g, '-')`: each character outside the class becomes
a single `-`. -/
def replaceNonSlug (s : List Char) : List Char :=
  s.map fun c => if isSlugChar c then c else '-'

/-- `.replace(/[-]+/g, '-')`: every maximal run of `-` becomes one `-`. -/
def collapseDashes : List Char → List Char
  | [] => []
  | [c] => [c]
  | a :: b :: rest =>
    if a = '-' && b = '-' then collapseDashes (b :: rest)
    else a :: collapseDashes (b :: rest)

/-- The `^-` alternative of `.replace(/^[-]|[-]$/g, '')`: delete one leading `-`. -/
def dropLeadingDash : List Char → List Char
  | [] => []
  | a :: rest => if a = '-' then rest else a :: rest

/-- The `-$` alternative of `.replace(/^[-]|[-]$/g, '')`: delete one trailing `-`. -/
def dropTrailingDash : List Char → List Char
  | [] => []
  | [c] => if c = '-' then [] else [c]
  | a :: b :: rest => a :: dropTrailingDash (b :: rest)

/-- `createProjectId` from `src/lib/project-scanner.ts`. -/
def createProjectId (name : String) : String :=
  ⟨dropTrailingDash (dropLeadingDash (collapseDashes
      (replaceNonSlug (name.data.map Char.toLower))))⟩

/-- No two adjacent `-` characters. -/
def noDoubleDash : List Char → Bool
  | [] => true
  | [_] => true
  | a :: b :: rest => !(a = '-' && b = '-') && noDoubleDash (b :: rest)

/-- Does the list start with `-`? -/
def headIsDash : List Char → Bool
  | [] => false
  | a :: _ => a = '-'

/-- Does the list end with `-`? -/
def lastIsDash : List Char → Bool
  | [] => false
  | [c] => c = '-'
  | _ :: b :: rest => lastIsDash (b :: rest)

/-- `String.startsWith`, modelled at the character level. -/
def strStartsWith (s pre : String) : Bool := pre.data.isPrefixOf s.data

/-- `String.endsWith`, modelled at the character level. -/
def strEndsWith (s suf : String) : Bool := suf.data.isSuffixOf s.data

/-- Removal of the last `n` characters, modelled at the character level. -/
def strDropRight (s : String) (n : Nat) : String :=
  ⟨s.data.take (s.data.length - n)⟩

/-- Extraction of the first `n` characters, modelled at the character level
(`content.slice(0, n)`). -/
def strTake (s : String) (n : Nat) : String := ⟨s.data.take n⟩

/-! ## Directory scanner (`src/lib/project-scanner.ts`) -/

/-- `IGNORED_DIRECTORIES` from `src/lib/project-scanner.ts` (lines 17–31). -/
def IGNORED_DIRECTORIES : List String :=
  ["node_modules", ".git", ".next", ".cache", ".pnpm", "dist", "build",
   "coverage", "__pycache__", ".venv", "venv", ".idea", ".vscode"]

/-- `join(dir, name)` from `path`. -/
def joinPath (dir name : String) : String := dir ++ "/" ++ name

/-- A `readdir(..., { withFileTypes: true })` entry: name and directory flag. -/
structure Dirent where
  name : String
  isDirectory : Bool
  deriving DecidableEq, Repr

/-- `ScanResult` union from `src/lib/project-scanner.ts`: a successful
`Project` or an error with message and failing path. -/
inductive ScanResult where
  | ok (project : Project)
  | err (error : String) (path : String)
  deriving DecidableEq, Repr

/-- Whether a scan result is a successful record. -/
def ScanResult.isOk : ScanResult → Bool
  | .ok _ => true
  | .err _ _ => false

/-- Filesystem/environment oracle for one `scanDirectory` call: `stat` of the
root (`isDirectory()` flag, may throw) and `readdir` of the root (may throw);
per path, `fileExists` (the `access`-based check, which never throws),
`statChild` (the per-directory `stat`, millisecond mtime, may throw),
`description` (`getProjectDescription`, which swallows every failure into
`undefined`), `tags` (`getProjectTags`, which never throws), and `scanClock`
(the `new Date()` read by `determineInitialStatus` while that directory is
scanned). -/
structure ScanFS where
  statRoot : Except String Bool
  readdir : Except String (List Dirent)
  fileExists : String → Bool
  statChild : String → Except String Int
  description : String → Option String
  tags : String → List String
  scanClock : String → Int

/-- `projectIndicators` from `isProjectDirectory` (lines 94–106). -/
def projectIndicators : List String :=
  ["package.json", ".git", "README.md", "README.txt", "README",
   "pyproject.toml", "Cargo.toml", "go.mod", "pom.xml", "build.gradle",
   "Makefile"]

/-- `isProjectDirectory` (lines 93–113): at least one indicator file exists. -/
def isProjectDirectory (fs : ScanFS) (dirPath : String) : Bool :=
  projectIndicators.any fun indicator => fs.fileExists (joinPath dirPath indicator)

/-- `determineInitialStatus` from `src/lib/project-scanner.ts` (lines
136–147).  Note the middle band differs from `determineProjectStatus`:
`≤ 7 → active`, `≤ 30 → unknown`, else `stale`. -/
def determineInitialStatus (lastModified now : Int) : ProjectStatus :=
  let daysSinceModified := daysBetween now lastModified
  if daysSinceModified ≤ 7 then .active
  else if daysSinceModified ≤ 30 then .unknown
  else .stale

/-- `scanProject` (lines 180–211): `stat` (the only throwing step), README
variant checks, `package.json` flag, description, persisted tags. -/
def scanProject (fs : ScanFS) (dirPath name : String) : Except String Project :=
  match fs.statChild dirPath with
  | .error msg => .error msg
  | .ok mtime =>
    let projectId := createProjectId name
    let hasReadmeFile := ["README.md", "README.txt", "README"].any fun f =>
      fs.fileExists (joinPath dirPath f)
    .ok { id := projectId
          name := name
          path := dirPath
          description := fs.description dirPath
          status := determineInitialStatus mtime (fs.scanClock dirPath)
          lastModified := mtime
          gitInfo := none
          hasPackageJson := fs.fileExists (joinPath dirPath "package.json")
          hasReadme := hasReadmeFile
          tags := fs.tags projectId }

/-- The per-child body of `scanDirectory` (lines 277–300): indicator check,
`scanProject`, the `status = 'unknown'` override for directories with no
indicator, and the per-directory `catch` producing an error tagged with the
child's full path. -/
def scanChild (fs : ScanFS) (projectsPath : String) (name : String) : ScanResult :=
  let fullPath := joinPath projectsPath name
  let isProject := isProjectDirectory fs fullPath
  match scanProject fs fullPath name with
  | .ok project =>
    if !isProject then .ok { project with status := .unknown }
    else .ok project
  | .error msg => .err ("Failed to scan project: " ++ msg) fullPath

/-- The child filter of `scanDirectory` (lines 268–273). -/
def keepEntry (includeHidden : Bool) (entry : Dirent) : Bool :=
  if !entry.isDirectory then false
  else if IGNORED_DIRECTORIES.contains entry.name then false
  else if !includeHidden && strStartsWith entry.name "." then false
  else true

/-- `scanDirectory` from `src/lib/project-scanner.ts` (lines 232–304). -/
def scanDirectory (fs : ScanFS) (projectsPath : String)
    (includeHidden : Bool) : List ScanResult :=
  match fs.statRoot with
  | .error msg => [.err ("Cannot access directory: " ++ msg) projectsPath]
  | .ok isDir =>
    if !isDir then
      [.err ("Path is not a directory: " ++ projectsPath) projectsPath]
    else
      match fs.readdir with
      | .error msg => [.err ("Failed to read directory: " ++ msg) projectsPath]
      | .ok entries =>
        (entries.filter (keepEntry includeHidden)).map fun dir =>
          scanChild fs projectsPath dir.name

/-- Modelled from the spec: §4.3/§6 describe `isRepository(path) -> bool` as
a "cheap existence check"; the `simple-git` implementation behind
`checkIsRepo` is an external library, not code of this repository, so
repository detection over a scanned filesystem is modelled as existence of
the `.git` marker in the directory. -/
def fsCheckIsRepo (fs : ScanFS) (path : String) : Bool :=
  fs.fileExists (joinPath path ".git")

/-! ## `getReadmeContent` (`src/lib/project-scanner.ts`, lines 352–399) -/

/-- `README_FILES` (line 352): variants tried in order of preference. -/
def README_FILES : List String :=
  ["README.md", "README.txt", "README", "readme.md", "Readme.md"]

/-- `MAX_README_LENGTH` (line 357). -/
def MAX_README_LENGTH : Nat := 50000

/-- Oracle for `getReadmeContent`: `fileExists` never throws, `readFile` may. -/
structure ReadFS where
  fileExists : String → Bool
  readFile : String → Except String String

/-- The `for … of README_FILES` loop of `getReadmeContent`: first variant
that exists and reads successfully wins; a read failure is caught and the
loop continues; oversized content is truncated. -/
def readmeLoop (fs : ReadFS) (projectPath : String) : List String → Option String
  | [] => none
  | fileName :: rest =>
    let filePath := joinPath projectPath fileName
    if fs.fileExists filePath then
      match fs.readFile filePath with
      | .ok content =>
        if content.length > MAX_README_LENGTH then
          some (strTake content MAX_README_LENGTH ++ "\n\n... (truncated)")
        else some content
      | .error _ => readmeLoop fs projectPath rest
    else readmeLoop fs projectPath rest

/-- `getReadmeContent` from `src/lib/project-scanner.ts` (lines 376–399). -/
def getReadmeContent (fs : ReadFS) (projectPath : String) : Option String :=
  readmeLoop fs projectPath README_FILES

/-! ## `getGitRemoteUrl` (`src/lib/git-utils.ts`, lines 254–292) -/

/-- `GitRemoteUrlResult` from `src/lib/git-utils.ts`. -/
structure GitRemoteUrlResult where
  url : Option String
  error : Option String
  deriving DecidableEq, Repr

/-- One remote as returned by `git.getRemotes(true)`: its `name` and its
`refs.fetch` URL (empty string when unset — JS truthiness). -/
structure Remote where
  name : String
  fetch : String
  deriving DecidableEq, Repr

/-- Index of the first `:` in a character list, if any. -/
def firstColonIdx : List Char → Option Nat
  | [] => none
  | c :: rest => if c = ':' then some 0 else (firstColonIdx rest).map (· + 1)

/-- The `.replace(/^git@([^:]+):/, 'https://$1/')` step: if the URL starts
with `git@` and has a colon preceded by at least one non-colon character,
rewrite the prefix; otherwise the regex does not match and the URL is kept. -/
def sshToHttps (url : String) : String :=
  match url.data with
  | 'g' :: 'i' :: 't' :: '@' :: rest =>
    match firstColonIdx rest with
    | some k =>
      if 1 ≤ k then
        ⟨"https://".data ++ rest.take k ++ '/' :: rest.drop (k + 1)⟩
      else url
    | none => url
  | _ => url

/-- The `.replace(/\.git$/, '')` step. -/
def stripDotGit (url : String) : String :=
  if strEndsWith url ".git" then strDropRight url 4 else url

/-- The URL-normalization block of `getGitRemoteUrl` (lines 276–285): SSH
URLs are rewritten to HTTPS then stripped of a trailing `.git`; HTTP(S) URLs
are stripped of a trailing `.git`; anything else is returned unchanged. -/
def normalizeRemoteUrl (remoteUrl : String) : String :=
  if strStartsWith remoteUrl "git@" then
    stripDotGit (sshToHttps remoteUrl)
  else if strStartsWith remoteUrl "https://" ||
      strStartsWith remoteUrl "http://" then
    stripDotGit remoteUrl
  else remoteUrl

/-- `getGitRemoteUrl` from `src/lib/git-utils.ts` (lines 254–292), over the
results of the two `simple-git` calls it makes (`checkIsRepo`, then
`getRemotes(true)`); thrown errors are caught into
`Failed to get remote URL: …`. -/
def getGitRemoteUrl (checkIsRepo : Except String Bool)
    (getRemotes : Except String (List Remote)) : GitRemoteUrlResult :=
  match checkIsRepo with
  | .error msg => { url := none, error := some ("Failed to get remote URL: " ++ msg) }
  | .ok false => { url := none, error := some "Not a Git repository" }
  | .ok true =>
    match getRemotes with
    | .error msg =>
      { url := none, error := some ("Failed to get remote URL: " ++ msg) }
    | .ok remotes =>
      match (remotes.find? fun r => r.name == "origin").orElse
          (fun _ => remotes.head?) with
      | none => { url := none, error := some "No remote found" }
      | some origin =>
        if origin.fetch = "" then { url := none, error := some "No remote found" }
        else { url := some (normalizeRemoteUrl origin.fetch), error := none }

/-! ## Concrete fixtures used by witnesses -/

/-- Entries of a sample root listing: two project directories, an ignored
directory, a hidden directory and a plain file. -/
def sampleEntries : List Dirent :=
  [⟨"proj-a", true⟩, ⟨"proj-b", true⟩, ⟨"node_modules", true⟩,
   ⟨".hidden", true⟩, ⟨"notes.txt", false⟩]

/-- A sample filesystem: only `/root/proj-a/package.json` exists, so
`/root/proj-b` has no indicator file; every child stats at mtime 0; every
`new Date()` during the scan reads 40 days after that mtime. -/
def sampleFS : ScanFS :=
  { statRoot := .ok true
    readdir := .ok sampleEntries
    fileExists := fun p => p == "/root/proj-a/package.json"
    statChild := fun _ => .ok 0
    description := fun _ => none
    tags := fun _ => []
    scanClock := fun _ => 40 * msPerDay }

/-- A git oracle whose repository check is exactly the spec-modelled `.git`
existence check over `sampleFS`. -/
def sampleGitOracle : GitOracle :=
  { checkIsRepo := fun p => .ok (fsCheckIsRepo sampleFS p)
    status := fun _ => .error "unused"
    log := fun _ => .error "unused" }

/-- A filesystem whose middle child fails `stat` with a permission error. -/
def permFS : ScanFS :=
  { statRoot := .ok true
    readdir := .ok [⟨"proj-a", true⟩, ⟨"proj-b", true⟩, ⟨"proj-c", true⟩]
    fileExists := fun _ => false
    statChild := fun p =>
      if p == "/root/proj-b" then .error "EACCES: permission denied"
      else .ok 0
    description := fun _ => none
    tags := fun _ => []
    scanClock := fun _ => 0 }

/-- The record `scanProject` builds for `/root/proj-a` over `permFS`. -/
def permProjA : Project :=
  { id := createProjectId "proj-a", name := "proj-a", path := "/root/proj-a",
    description := none,
    status := determineInitialStatus 0 (permFS.scanClock "/root/proj-a"),
    lastModified := 0, gitInfo := none,
    hasPackageJson := permFS.fileExists "/root/proj-a/package.json",
    hasReadme := ["README.md", "README.txt", "README"].any fun f =>
      permFS.fileExists (joinPath "/root/proj-a" f),
    tags := permFS.tags (createProjectId "proj-a") }

/-- The record `scanProject` builds for `/root/proj-c` over `permFS`. -/
def permProjC : Project :=
  { id := createProjectId "proj-c", name := "proj-c", path := "/root/proj-c",
    description := none,
    status := determineInitialStatus 0 (permFS.scanClock "/root/proj-c"),
    lastModified := 0, gitInfo := none,
    hasPackageJson := permFS.fileExists "/root/proj-c/package.json",
    hasReadme := ["README.md", "README.txt", "README"].any fun f =>
      permFS.fileExists (joinPath "/root/proj-c" f),
    tags := permFS.tags (createProjectId "proj-c") }

/-- A filesystem whose root does not exist. -/
def missingRootFS : ScanFS :=
  { statRoot := .error "ENOENT: no such file or directory"
    readdir := .error "ENOENT: no such file or directory"
    fileExists := fun _ => false
    statChild := fun _ => .error "ENOENT"
    description := fun _ => none
    tags := fun _ => []
    scanClock := fun _ => 0 }

/-- A readme filesystem: `README.md` is missing, `README.txt` exists and
reads as a short document. -/
def sampleReadFS : ReadFS :=
  { fileExists := fun p => p == "/root/proj-a/README.txt"
    readFile := fun p =>
      if p == "/root/proj-a/README.txt" then .ok "Hello" else .error "ENOENT" }

/-- A readme filesystem where no variant exists at all. -/
def emptyReadFS : ReadFS :=
  { fileExists := fun _ => false, readFile := fun _ => .error "ENOENT" }

/-- A remote list containing an `origin` behind another remote. -/
def sampleRemotes : List Remote :=
  [⟨"upstream", "https://github.com/up/stream.git"⟩,
   ⟨"origin", "git@github.com:owner/repo.git"⟩]

/-- A remote list with no `origin`. -/
def originlessRemotes : List Remote :=
  [⟨"backup", "https://example.com/own/repo.git"⟩]

/-- C1: the code's status classification coincides with the spec-§4.2
reference definition everywhere, and the boundaries are exact: at exactly
7.0 days the result is `active` (both with and without repo info), and at
exactly 30.0 days the result is not `stale`. -/
theorem determineProjectStatus_matches_spec :
    (∀ gitInfo lastModified now,
        determineProjectStatus gitInfo lastModified now =
          specClassify gitInfo lastModified now) ∧
    determineProjectStatus none 0 (7 * msPerDay) = .active ∧
    determineProjectStatus (some cleanNoCommit) 0 (7 * msPerDay) = .active ∧
    determineProjectStatus none 0 (30 * msPerDay) ≠ .stale ∧
    determineProjectStatus (some cleanNoCommit) 0 (30 * msPerDay) ≠ .stale := by
  refine ⟨fun gitInfo lastModified now => ?_, ?_, ?_, ?_, ?_⟩
  · cases gitInfo <;> rfl
  all_goals simp [determineProjectStatus, cleanNoCommit, daysBetween, msPerDay]
  all_goals norm_num
  all_goals decide

theorem enrichGo_length (getStatusO : String → GetGitStatusResult)
    (clock : Nat → Int × Int) (i : Nat) (projects : List Project) :
    (enrichGo getStatusO clock i projects).length = projects.length := by
  induction projects generalizing i with
  | nil => rfl
  | cons p rest ih => simp [enrichGo, ih]

theorem enrichGo_getElem (getStatusO : String → GetGitStatusResult)
    (clock : Nat → Int × Int) (j i : Nat) (projects : List Project)
    (hi : i < projects.length)
    (hi' : i < (enrichGo getStatusO clock j projects).length) :
    (enrichGo getStatusO clock j projects)[i] =
      match getStatusO projects[i].path with
      | .ok gi =>
        { projects[i] with
          gitInfo := some gi
          status := determineProjectStatus (some gi) (clock (j + i)).1
            (clock (j + i)).2 }
      | .err _ => projects[i] := by
  induction projects generalizing j i with
  | nil => simp at hi
  | cons p rest ih =>
    cases i with
    | zero => simp [enrichGo]
    | succ k =>
      have hk : k < rest.length := by simpa using hi
      have hk' : k < (enrichGo getStatusO clock (j + 1) rest).length := by
        simpa [enrichGo_length] using hk
      have := ih (j + 1) k hk hk'
      simpa [enrichGo, Nat.add_assoc, Nat.add_comm 1 k] using this

/-- C2: refuted as stated — the enrichment pass does NOT classify with the
record's own `lastModified` as fallback reference, nor with a `now` fixed at
enrichment start.  `enrichProjectsWithGitInfo` calls
`determineProjectStatus(result.gitInfo, new Date())`: the current time is
passed where `determineProjectStatus` documents "Last modified date of the
project", and `now` is re-read inside `determineProjectStatus` per record.
Failing input: `oldProject` (mtime = 0), enriched at `now = 40` days with a
clean repo whose log has no commit date — the code yields `active` while the
spec-§4.2 classification with the record's `lastModified` yields `stale`. -/
theorem enrich_fallback_is_current_time_not_lastModified :
    (enrichProjectsWithGitInfo (fun _ => .ok cleanNoCommit)
        (fun _ => (40 * msPerDay, 40 * msPerDay)) [oldProject]).map (·.status)
      = [.active] ∧
    specClassify (some cleanNoCommit) oldProject.lastModified (40 * msPerDay)
      = .stale := by
  constructor
  · simp [enrichProjectsWithGitInfo, enrichGo, determineProjectStatus,
      cleanNoCommit, daysBetween, msPerDay]
  · simp [specClassify, cleanNoCommit, oldProject, daysBetween, msPerDay]
    norm_num

/-- C6: a record whose `getGitStatus` call errors is returned by the
enrichment pass unchanged — same position, every field exactly as the scanner
set it; consequently two oracles that both fail on a record's path produce
identical enrichment results for it, whatever their error messages. -/
theorem enrich_error_leaves_record_unchanged
    (getStatusO : String → GetGitStatusResult) (clock : Nat → Int × Int)
    (projects : List Project) (i : Nat) (hi : i < projects.length)
    (e : String) (he : getStatusO projects[i].path = .err e) :
    ((enrichProjectsWithGitInfo getStatusO clock projects).length
        = projects.length) ∧
    ∀ hi' : i < (enrichProjectsWithGitInfo getStatusO clock projects).length,
      (enrichProjectsWithGitInfo getStatusO clock projects)[i] = projects[i] := by
  refine ⟨enrichGo_length _ _ _ _, fun hi' => ?_⟩
  unfold enrichProjectsWithGitInfo at hi' ⊢
  rw [enrichGo_getElem getStatusO clock 0 i projects hi hi', he]

/-- Witness for C6 at a concrete record and failing oracle. -/
theorem enrich_error_leaves_record_unchanged_witness :
    (fun _ : String => GetGitStatusResult.err "Not a Git repository")
        oldProject.path = .err "Not a Git repository" ∧
    ∀ hi' : 0 < (enrichProjectsWithGitInfo
        (fun _ => .err "Not a Git repository") (fun _ => (0, 0))
        [oldProject]).length,
      (enrichProjectsWithGitInfo (fun _ => .err "Not a Git repository")
        (fun _ => (0, 0)) [oldProject])[0] = oldProject :=
  ⟨rfl,
    (enrich_error_leaves_record_unchanged
      (fun _ => .err "Not a Git repository") (fun _ => (0, 0)) [oldProject]
      0 (by decide) "Not a Git repository" rfl).2⟩

theorem toLower_of_isSlugChar (c : Char) (h : isSlugChar c) : c.toLower = c := by
  simp [isSlugChar] at h
  simp only [Char.toLower]
  rw [if_neg]
  omega

theorem mem_replaceNonSlug (l : List Char) (c : Char)
    (h : c ∈ replaceNonSlug l) : isSlugChar c := by
  simp [replaceNonSlug] at h
  obtain ⟨a, _, ha⟩ := h
  by_cases hs : isSlugChar a
  · rw [if_pos hs] at ha; exact ha ▸ hs
  · rw [if_neg hs] at ha; exact ha ▸ rfl

theorem mem_collapseDashes (l : List Char) (c : Char)
    (h : c ∈ collapseDashes l) : c ∈ l := by
  induction l using collapseDashes.induct with
  | case1 => simp [collapseDashes] at h
  | case2 x => simpa [collapseDashes] using h
  | case3 a b rest hab ih =>
    rw [collapseDashes, if_pos hab] at h
    exact List.mem_cons_of_mem a (ih h)
  | case4 a b rest hab ih =>
    rw [collapseDashes, if_neg hab] at h
    rcases List.mem_cons.mp h with h1 | h2
    · exact h1 ▸ List.mem_cons_self a _
    · exact List.mem_cons_of_mem a (ih h2)

theorem collapseDashes_head (l : List Char) :
    (collapseDashes l).head? = l.head? := by
  induction l using collapseDashes.induct with
  | case1 => rfl
  | case2 x => rfl
  | case3 a b rest hab ih =>
    rw [collapseDashes, if_pos hab, ih]
    simp at hab
    simp [hab.1, hab.2]
  | case4 a b rest hab ih => rw [collapseDashes, if_neg hab]; rfl

theorem noDoubleDash_collapseDashes (l : List Char) :
    noDoubleDash (collapseDashes l) := by
  induction l using collapseDashes.induct with
  | case1 => rfl
  | case2 x => rfl
  | case3 a b rest hab ih => rw [collapseDashes, if_pos hab]; exact ih
  | case4 a b rest hab ih =>
    rw [collapseDashes, if_neg hab]
    cases hc : collapseDashes (b :: rest) with
    | nil => rfl
    | cons c t =>
      have hhead : c = b := by
        have := collapseDashes_head (b :: rest)
        rw [hc] at this
        simpa using this
      rw [noDoubleDash]
      subst hhead
      rw [hc] at ih
      simp only [Bool.and_eq_true, Bool.not_eq_true']
      exact ⟨by simpa using hab, ih⟩

theorem collapseDashes_of_noDoubleDash (l : List Char)
    (h : noDoubleDash l) : collapseDashes l = l := by
  induction l using collapseDashes.induct with
  | case1 => rfl
  | case2 x => rfl
  | case3 a b rest hab ih =>
    rw [noDoubleDash] at h
    simp only [Bool.and_eq_true, Bool.not_eq_true'] at h
    rw [hab] at h
    exact absurd h.1 (by simp)
  | case4 a b rest hab ih =>
    rw [noDoubleDash] at h
    simp only [Bool.and_eq_true, Bool.not_eq_true'] at h
    rw [collapseDashes, if_neg hab, ih h.2]

theorem noDoubleDash_tail (a : Char) (l : List Char)
    (h : noDoubleDash (a :: l)) : noDoubleDash l := by
  cases l with
  | nil => rfl
  | cons b rest =>
    rw [noDoubleDash] at h
    simp only [Bool.and_eq_true] at h
    exact h.2

theorem mem_dropLeadingDash (l : List Char) (c : Char)
    (h : c ∈ dropLeadingDash l) : c ∈ l := by
  cases l with
  | nil => simp [dropLeadingDash] at h
  | cons a rest =>
    by_cases ha : a = '-'
    · rw [dropLeadingDash, if_pos ha] at h
      exact List.mem_cons_of_mem a h
    · rwa [dropLeadingDash, if_neg ha] at h

theorem mem_dropTrailingDash (l : List Char) (c : Char)
    (h : c ∈ dropTrailingDash l) : c ∈ l := by
  induction l with
  | nil => simp [dropTrailingDash] at h
  | cons a rest ih =>
    cases rest with
    | nil =>
      rw [dropTrailingDash] at h
      split at h
      · simp at h
      · exact h
    | cons b r =>
      rw [dropTrailingDash] at h
      rcases List.mem_cons.mp h with h1 | h2
      · exact h1 ▸ List.mem_cons_self a _
      · exact List.mem_cons_of_mem a (ih h2)

theorem noDoubleDash_dropLeadingDash (l : List Char)
    (h : noDoubleDash l) : noDoubleDash (dropLeadingDash l) := by
  cases l with
  | nil => rfl
  | cons a rest =>
    by_cases ha : a = '-'
    · rw [dropLeadingDash, if_pos ha]
      exact noDoubleDash_tail a rest h
    · rwa [dropLeadingDash, if_neg ha]

theorem dropTrailingDash_cons_head (l : List Char) (c : Char) (t : List Char)
    (h : dropTrailingDash l = c :: t) : l.head? = some c := by
  cases l with
  | nil => simp [dropTrailingDash] at h
  | cons a rest =>
    cases rest with
    | nil =>
      rw [dropTrailingDash] at h
      split at h
      · simp at h
      · simpa using (List.cons.injEq _ _ _ _ ▸ h : _) |>.1 ▸ rfl
    | cons b r =>
      rw [dropTrailingDash] at h
      simp only [List.cons.injEq] at h
      simp [h.1]

theorem noDoubleDash_dropTrailingDash (l : List Char)
    (h : noDoubleDash l) : noDoubleDash (dropTrailingDash l) := by
  induction l with
  | nil => rfl
  | cons a rest ih =>
    cases rest with
    | nil =>
      rw [dropTrailingDash]
      split
      · rfl
      · rfl
    | cons b r =>
      rw [dropTrailingDash]
      have htail := noDoubleDash_tail a (b :: r) h
      cases hd : dropTrailingDash (b :: r) with
      | nil => rfl
      | cons c t =>
        have hc : c = b := by
          have := dropTrailingDash_cons_head (b :: r) c t hd
          exact (by simpa using this : b = c).symm
        rw [noDoubleDash]
        simp only [Bool.and_eq_true, Bool.not_eq_true']
        constructor
        · subst hc
          rw [noDoubleDash] at h
          simp only [Bool.and_eq_true, Bool.not_eq_true'] at h
          exact h.1
        · rw [← hd]; exact ih htail

theorem headIsDash_dropLeadingDash (l : List Char)
    (h : noDoubleDash l) : headIsDash (dropLeadingDash l) = false := by
  cases l with
  | nil => rfl
  | cons a rest =>
    by_cases ha : a = '-'
    · rw [dropLeadingDash, if_pos ha]
      cases rest with
      | nil => rfl
      | cons b r =>
        rw [headIsDash]
        subst ha
        rw [noDoubleDash] at h
        simp only [Bool.and_eq_true, Bool.not_eq_true'] at h
        have := h.1
        simp only [decide_eq_true_eq] at this ⊢
        simpa using this
    · rw [dropLeadingDash, if_neg ha, headIsDash]
      simpa using ha

theorem headIsDash_dropTrailingDash (l : List Char)
    (h : headIsDash l = false) : headIsDash (dropTrailingDash l) = false := by
  cases l with
  | nil => rfl
  | cons a rest =>
    cases rest with
    | nil =>
      rw [dropTrailingDash]
      split
      · rfl
      · exact h
    | cons b r => rw [dropTrailingDash, headIsDash]; exact h

theorem lastIsDash_cons_cons (a b : Char) (t : List Char) :
    lastIsDash (a :: b :: t) = lastIsDash (b :: t) := rfl

theorem lastIsDash_dropTrailingDash (l : List Char)
    (h : noDoubleDash l) : lastIsDash (dropTrailingDash l) = false := by
  induction l with
  | nil => rfl
  | cons a rest ih =>
    cases rest with
    | nil =>
      rw [dropTrailingDash]
      split
      · rfl
      · rw [lastIsDash]
        simpa using (by assumption : ¬ a = '-')
    | cons b r =>
      rw [dropTrailingDash]
      have htail := noDoubleDash_tail a (b :: r) h
      cases hd : dropTrailingDash (b :: r) with
      | nil =>
        -- `dropTrailingDash (b :: r) = []` forces `r = []` and `b = '-'`
        cases r with
        | nil =>
          rw [dropTrailingDash] at hd
          split at hd
          · rw [lastIsDash]
            rw [noDoubleDash] at h
            simp only [Bool.and_eq_true, Bool.not_eq_true'] at h
            have hb : b = '-' := by assumption
            subst hb
            simpa using h.1
          · simp at hd
        | cons d r2 => rw [dropTrailingDash] at hd; simp at hd
      | cons c t =>
        rw [lastIsDash_cons_cons, ← hd]
        exact ih htail

theorem map_toLower_of_isSlugChar (l : List Char)
    (h : ∀ c ∈ l, isSlugChar c) : l.map Char.toLower = l := by
  induction l with
  | nil => rfl
  | cons a rest ih =>
    rw [List.map_cons, toLower_of_isSlugChar a (h a (List.mem_cons_self a rest)),
      ih fun c hc => h c (List.mem_cons_of_mem a hc)]

theorem replaceNonSlug_of_isSlugChar (l : List Char)
    (h : ∀ c ∈ l, isSlugChar c) : replaceNonSlug l = l := by
  induction l with
  | nil => rfl
  | cons a rest ih =>
    rw [replaceNonSlug, List.map_cons, if_pos (h a (List.mem_cons_self a rest))]
    have := ih fun c hc => h c (List.mem_cons_of_mem a hc)
    rw [replaceNonSlug] at this
    rw [this]

theorem dropLeadingDash_of_not_head (l : List Char)
    (h : headIsDash l = false) : dropLeadingDash l = l := by
  cases l with
  | nil => rfl
  | cons a rest =>
    rw [headIsDash] at h
    simp only [decide_eq_false_iff_not] at h
    rw [dropLeadingDash, if_neg h]

theorem dropTrailingDash_of_not_last (l : List Char)
    (h : lastIsDash l = false) : dropTrailingDash l = l := by
  induction l with
  | nil => rfl
  | cons a rest ih =>
    cases rest with
    | nil =>
      rw [lastIsDash] at h
      simp only [decide_eq_false_iff_not] at h
      rw [dropTrailingDash, if_neg h]
    | cons b r =>
      rw [lastIsDash_cons_cons] at h
      rw [dropTrailingDash, ih h]

/-- C7: the project-id slug is a (pure, deterministic) function which is
idempotent on every input string, and it normalizes `"My Cool App!"` to
`"my-cool-app"` (lowercase, non-alphanumeric runs collapsed to `-`, edge
dashes trimmed). -/
theorem createProjectId_idempotent :
    (∀ x, createProjectId (createProjectId x) = createProjectId x) ∧
    createProjectId "My Cool App!" = "my-cool-app" := by
  constructor
  · intro x
    set r : List Char := replaceNonSlug (x.data.map Char.toLower) with hr
    set cd : List Char := collapseDashes r with hcd
    set y : List Char := dropTrailingDash (dropLeadingDash cd) with hy
    have hall : ∀ c ∈ y, isSlugChar c := fun c hc =>
      mem_replaceNonSlug _ c
        (mem_collapseDashes r c (mem_dropLeadingDash cd c (mem_dropTrailingDash _ c hc)))
    have hnd_cd : noDoubleDash cd := noDoubleDash_collapseDashes r
    have hnd_y : noDoubleDash y :=
      noDoubleDash_dropTrailingDash _ (noDoubleDash_dropLeadingDash cd hnd_cd)
    have hhead : headIsDash y = false :=
      headIsDash_dropTrailingDash _ (headIsDash_dropLeadingDash cd hnd_cd)
    have hlast : lastIsDash y = false :=
      lastIsDash_dropTrailingDash _ (noDoubleDash_dropLeadingDash cd hnd_cd)
    show createProjectId ⟨y⟩ = ⟨y⟩
    rw [createProjectId]
    show (⟨dropTrailingDash (dropLeadingDash (collapseDashes
        (replaceNonSlug (y.map Char.toLower)))) ⟩ : String) = ⟨y⟩
    rw [map_toLower_of_isSlugChar y hall, replaceNonSlug_of_isSlugChar y hall,
      collapseDashes_of_noDoubleDash y hnd_y, dropLeadingDash_of_not_head y hhead,
      dropTrailingDash_of_not_last y hlast]
  · rfl

/-- C9: when the root is a readable directory, `scanDirectory` returns
exactly one result per retained child, in listing order; a child is retained
iff it is a directory, its name is not in the fixed ignore set (even when
`includeHidden` is set), and either `includeHidden` is set or its name does
not start with `.`. -/
theorem scanDirectory_one_result_per_retained_child
    (fs : ScanFS) (projectsPath : String) (includeHidden : Bool)
    (entries : List Dirent)
    (hroot : fs.statRoot = .ok true) (hrd : fs.readdir = .ok entries) :
    (∀ e : Dirent, keepEntry includeHidden e =
      (e.isDirectory &&
        !(["node_modules", ".git", ".next", ".cache", ".pnpm", "dist",
           "build", "coverage", "__pycache__", ".venv", "venv", ".idea",
           ".vscode"].contains e.name) &&
        (includeHidden || !(strStartsWith e.name ".")))) ∧
    scanDirectory fs projectsPath includeHidden =
      (entries.filter (keepEntry includeHidden)).map fun dir =>
        scanChild fs projectsPath dir.name := by
  constructor
  · intro e
    rw [keepEntry]
    by_cases h1 : e.isDirectory <;> by_cases h2 : IGNORED_DIRECTORIES.contains e.name <;>
      by_cases h3 : includeHidden <;> by_cases h4 : strStartsWith e.name "." <;>
      simp_all [IGNORED_DIRECTORIES]
  · unfold scanDirectory
    rw [hroot, hrd]
    rfl

/-- Witness for C9 over the concrete `sampleFS` listing. -/
theorem scanDirectory_one_result_per_retained_child_witness :
    (∀ e : Dirent, keepEntry false e =
      (e.isDirectory &&
        !(["node_modules", ".git", ".next", ".cache", ".pnpm", "dist",
           "build", "coverage", "__pycache__", ".venv", "venv", ".idea",
           ".vscode"].contains e.name) &&
        (false || !(strStartsWith e.name ".")))) ∧
    scanDirectory sampleFS "/root" false =
      (sampleEntries.filter (keepEntry false)).map fun dir =>
        scanChild sampleFS "/root" dir.name :=
  scanDirectory_one_result_per_retained_child sampleFS "/root" false
    sampleEntries rfl rfl

/-- C3: a retained child directory containing none of the fixed
project-indicator files still yields a successful record in
`scanDirectory`'s output, and that record's status is `unknown` whatever the
directory's mtime or the scan clock; moreover, since `.git` is among the
indicators, the (spec-modelled existence-check) repository detection fails
on it, `getGitStatus` errors, and any enrichment pass returns the record
unchanged — so the directory ends scan-plus-enrichment with status
`unknown`, never `stale`. -/
theorem scan_no_indicator_yields_unknown
    (fs : ScanFS) (projectsPath name : String) (includeHidden : Bool)
    (entries : List Dirent) (entry : Dirent) (mtime : Int) (gitO : GitOracle)
    (hroot : fs.statRoot = .ok true) (hrd : fs.readdir = .ok entries)
    (hmem : entry ∈ entries.filter (keepEntry includeHidden))
    (hname : entry.name = name)
    (hnoind : ∀ ind ∈ projectIndicators,
        fs.fileExists (joinPath (joinPath projectsPath name) ind) = false)
    (hstat : fs.statChild (joinPath projectsPath name) = .ok mtime)
    (hgit : gitO.checkIsRepo (joinPath projectsPath name) =
        .ok (fsCheckIsRepo fs (joinPath projectsPath name))) :
    ∃ p, scanChild fs projectsPath name = .ok p ∧ p.status = .unknown ∧
      ScanResult.ok p ∈ scanDirectory fs projectsPath includeHidden ∧
      ∀ clock j, enrichGo (getGitStatus gitO) clock j [p] = [p] := by
  have hnp : isProjectDirectory fs (joinPath projectsPath name) = false := by
    rw [isProjectDirectory, List.any_eq_false]
    intro ind hind
    simp [hnoind ind hind]
  have hchild : ∃ p, scanChild fs projectsPath name = .ok p ∧
      p.status = .unknown ∧ p.path = joinPath projectsPath name := by
    simp only [scanChild, scanProject, hstat, hnp]
    exact ⟨_, rfl, rfl, rfl⟩
  obtain ⟨p, hp, hstatus, hpath⟩ := hchild
  have hrepo : fsCheckIsRepo fs (joinPath projectsPath name) = false :=
    hnoind ".git" (by simp [projectIndicators])
  have hgs : getGitStatus gitO p.path = .err "Not a Git repository" := by
    rw [hpath]
    simp only [getGitStatus, hgit, hrepo]
  refine ⟨p, hp, hstatus, ?_, ?_⟩
  · unfold scanDirectory
    rw [hroot, hrd]
    show ScanResult.ok p ∈
      (entries.filter (keepEntry includeHidden)).map fun dir =>
        scanChild fs projectsPath dir.name
    exact List.mem_map.mpr ⟨entry, hmem, by rw [hname, hp]⟩
  · intro clock j
    simp only [enrichGo, hgs]

/-- Witness for C3: `/root/proj-b` over `sampleFS` (mtime 40 days old,
no indicator files) scans successfully with status `unknown` and survives
enrichment unchanged. -/
theorem scan_no_indicator_yields_unknown_witness :
    ∃ p, scanChild sampleFS "/root" "proj-b" = .ok p ∧
      p.status = .unknown ∧
      ScanResult.ok p ∈ scanDirectory sampleFS "/root" false ∧
      ∀ clock j, enrichGo (getGitStatus sampleGitOracle) clock j [p] = [p] :=
  scan_no_indicator_yields_unknown sampleFS "/root" "proj-b" false
    sampleEntries ⟨"proj-b", true⟩ 0 sampleGitOracle rfl rfl
    (by decide) rfl (by decide) rfl rfl

theorem scanChild_ok (fs : ScanFS) (projectsPath name : String) (p : Project)
    (h : scanProject fs (joinPath projectsPath name) name = .ok p) :
    ∃ r, scanChild fs projectsPath name = .ok r := by
  simp only [scanChild, h]
  by_cases hip : isProjectDirectory fs (joinPath projectsPath name)
  · simp [hip]
  · simp only [Bool.not_eq_true] at hip
    simp [hip]

/-- C4: with a readable root listing three retained sibling directories, of
which exactly the middle one fails metadata extraction (its `stat` throws),
`scanDirectory` returns — without throwing — exactly two successful records
and one error, the error carrying the failing directory's full path and the
caught message, and each sibling's record is its normal scan result. -/
theorem scan_isolates_single_child_failure
    (fs : ScanFS) (projectsPath : String) (includeHidden : Bool)
    (a b c : Dirent) (msg : String) (pa pc : Project)
    (hroot : fs.statRoot = .ok true) (hrd : fs.readdir = .ok [a, b, c])
    (hka : keepEntry includeHidden a = true)
    (hkb : keepEntry includeHidden b = true)
    (hkc : keepEntry includeHidden c = true)
    (ha : scanProject fs (joinPath projectsPath a.name) a.name = .ok pa)
    (hb : fs.statChild (joinPath projectsPath b.name) = .error msg)
    (hc : scanProject fs (joinPath projectsPath c.name) c.name = .ok pc) :
    ∃ ra rc, scanDirectory fs projectsPath includeHidden =
        [.ok ra,
         .err ("Failed to scan project: " ++ msg) (joinPath projectsPath b.name),
         .ok rc] ∧
      ((scanDirectory fs projectsPath includeHidden).filter
          ScanResult.isOk).length = 2 := by
  obtain ⟨ra, hra⟩ := scanChild_ok fs projectsPath a.name pa ha
  obtain ⟨rc, hrc⟩ := scanChild_ok fs projectsPath c.name pc hc
  have hbe : scanChild fs projectsPath b.name =
      .err ("Failed to scan project: " ++ msg) (joinPath projectsPath b.name) := by
    simp only [scanChild, scanProject, hb]
  have hlist : scanDirectory fs projectsPath includeHidden =
      [.ok ra,
       .err ("Failed to scan project: " ++ msg) (joinPath projectsPath b.name),
       .ok rc] := by
    unfold scanDirectory
    rw [hroot, hrd]
    show ([a, b, c].filter (keepEntry includeHidden)).map
        (fun dir => scanChild fs projectsPath dir.name) = _
    rw [List.filter_cons_of_pos hka, List.filter_cons_of_pos hkb,
      List.filter_cons_of_pos hkc]
    simp only [List.filter_nil, List.map_cons, List.map_nil, hra, hbe, hrc]
  exact ⟨ra, rc, hlist, by rw [hlist]; rfl⟩

/-- Witness for C4 at `permFS`: `/root/proj-b` raises a permission error,
its siblings scan normally. -/
theorem scan_isolates_single_child_failure_witness :
    ∃ ra rc, scanDirectory permFS "/root" false =
        [.ok ra,
         .err ("Failed to scan project: " ++ "EACCES: permission denied")
           (joinPath "/root" "proj-b"),
         .ok rc] ∧
      ((scanDirectory permFS "/root" false).filter ScanResult.isOk).length = 2 :=
  scan_isolates_single_child_failure permFS "/root" false
    ⟨"proj-a", true⟩ ⟨"proj-b", true⟩ ⟨"proj-c", true⟩
    "EACCES: permission denied" permProjA permProjC
    rfl rfl (by decide) (by decide) (by decide) rfl rfl rfl

theorem append_ne_empty (a b : String) (h : a.data ≠ []) : a ++ b ≠ "" := by
  intro hc
  apply h
  have hd := congrArg String.data hc
  rw [String.data_append] at hd
  exact (List.append_eq_nil.mp hd).1

/-- C5: if the root path's stat throws, or the root is not a directory, or
the root listing throws, `scanDirectory` returns exactly one error record —
a non-empty descriptive message tagged with the root path — and zero project
records, without throwing. -/
theorem scan_root_failure_single_error
    (fs : ScanFS) (projectsPath : String) (includeHidden : Bool)
    (h : (∃ e, fs.statRoot = .error e) ∨ fs.statRoot = .ok false ∨
        (∃ e, fs.readdir = .error e)) :
    ∃ msg, msg ≠ "" ∧
      scanDirectory fs projectsPath includeHidden = [.err msg projectsPath] := by
  rcases h with ⟨e, he⟩ | he | ⟨e, he⟩
  · refine ⟨"Cannot access directory: " ++ e, append_ne_empty _ _ (by decide), ?_⟩
    unfold scanDirectory
    rw [he]
  · refine ⟨"Path is not a directory: " ++ projectsPath,
      append_ne_empty _ _ (by decide), ?_⟩
    unfold scanDirectory
    rw [he]
    rfl
  · rcases hsr : fs.statRoot with e2 | isDir
    · refine ⟨"Cannot access directory: " ++ e2,
        append_ne_empty _ _ (by decide), ?_⟩
      unfold scanDirectory
      rw [hsr]
    · cases isDir with
      | false =>
        refine ⟨"Path is not a directory: " ++ projectsPath,
          append_ne_empty _ _ (by decide), ?_⟩
        unfold scanDirectory
        rw [hsr]
        rfl
      | true =>
        refine ⟨"Failed to read directory: " ++ e,
          append_ne_empty _ _ (by decide), ?_⟩
        unfold scanDirectory
        rw [hsr, he]
        rfl

/-- Witness for C5 at the concrete missing root. -/
theorem scan_root_failure_single_error_witness :
    ∃ msg, msg ≠ "" ∧
      scanDirectory missingRootFS "/gone" false = [.err msg "/gone"] :=
  scan_root_failure_single_error missingRootFS "/gone" false
    (Or.inl ⟨"ENOENT: no such file or directory", rfl⟩)

theorem readmeLoop_none (fs : ReadFS) (projectPath : String) (l : List String)
    (h : ∀ f ∈ l, fs.fileExists (joinPath projectPath f) = false ∨
        ∃ e, fs.readFile (joinPath projectPath f) = .error e) :
    readmeLoop fs projectPath l = none := by
  induction l with
  | nil => rfl
  | cons f rest ih =>
    have hrest := ih fun g hg => h g (List.mem_cons_of_mem f hg)
    rw [readmeLoop]
    rcases h f (List.mem_cons_self f rest) with hf | ⟨e, hf⟩
    · rw [hf]
      simpa using hrest
    · by_cases hex : fs.fileExists (joinPath projectPath f) = true
      · rw [if_pos hex, hf]
        exact hrest
      · rw [if_neg hex]
        exact hrest

theorem readmeLoop_first (fs : ReadFS) (projectPath : String)
    (l1 l2 : List String) (f : String) (content : String)
    (h1 : ∀ g ∈ l1, fs.fileExists (joinPath projectPath g) = false ∨
        ∃ e, fs.readFile (joinPath projectPath g) = .error e)
    (hex : fs.fileExists (joinPath projectPath f) = true)
    (hread : fs.readFile (joinPath projectPath f) = .ok content) :
    readmeLoop fs projectPath (l1 ++ f :: l2) =
      some (if content.length > MAX_README_LENGTH
        then strTake content MAX_README_LENGTH ++ "\n\n... (truncated)"
        else content) := by
  induction l1 with
  | nil =>
    rw [List.nil_append, readmeLoop, if_pos hex, hread]
    by_cases hlen : content.length > MAX_README_LENGTH
    · simp [hlen]
    · simp [hlen]
  | cons g rest ih =>
    have hrest := ih fun g2 hg2 => h1 g2 (List.mem_cons_of_mem g hg2)
    rw [List.cons_append, readmeLoop]
    rcases h1 g (List.mem_cons_self g rest) with hg | ⟨e, hg⟩
    · rw [hg]
      simpa using hrest
    · by_cases hgex : fs.fileExists (joinPath projectPath g) = true
      · rw [if_pos hgex, hg]
        exact hrest
      · rw [if_neg hgex]
        exact hrest

/-- C10: `getReadmeContent` returns the content of the first variant of
`README.md, README.txt, README, readme.md, Readme.md` (in that fixed order)
that exists and reads successfully — truncated to exactly the first 50000
characters plus the suffix `\n\n... (truncated)` when longer than 50000 —
and returns `none` (never throwing) when every variant is missing or fails
to read. -/
theorem getReadmeContent_spec :
    (∀ fs projectPath,
      (∀ f ∈ README_FILES, fs.fileExists (joinPath projectPath f) = false ∨
          ∃ e, fs.readFile (joinPath projectPath f) = .error e) →
      getReadmeContent fs projectPath = none) ∧
    (∀ fs projectPath l1 f l2 content, README_FILES = l1 ++ f :: l2 →
      (∀ g ∈ l1, fs.fileExists (joinPath projectPath g) = false ∨
          ∃ e, fs.readFile (joinPath projectPath g) = .error e) →
      fs.fileExists (joinPath projectPath f) = true →
      fs.readFile (joinPath projectPath f) = .ok content →
      getReadmeContent fs projectPath =
        some (if content.length > MAX_README_LENGTH
          then strTake content MAX_README_LENGTH ++ "\n\n... (truncated)"
          else content)) := by
  constructor
  · intro fs projectPath h
    exact readmeLoop_none fs projectPath README_FILES h
  · intro fs projectPath l1 f l2 content hsplit h1 hex hread
    rw [getReadmeContent, hsplit]
    exact readmeLoop_first fs projectPath l1 l2 f content h1 hex hread

/-- Witness for C10: no variant exists → `none`; `README.md` missing but
`README.txt` readable → its (short, untruncated) content. -/
theorem getReadmeContent_spec_witness :
    getReadmeContent emptyReadFS "/root/proj-a" = none ∧
    getReadmeContent sampleReadFS "/root/proj-a" = some "Hello" := by
  constructor
  · exact getReadmeContent_spec.1 emptyReadFS "/root/proj-a"
      fun f _ => Or.inl rfl
  · have := getReadmeContent_spec.2 sampleReadFS "/root/proj-a"
      ["README.md"] "README.txt" ["README", "readme.md", "Readme.md"]
      "Hello" rfl
      (by intro g hg; rw [List.mem_singleton] at hg; subst hg
          exact Or.inl (by decide))
      (by decide) rfl
    simpa using this

/-- C8: `getGitRemoteUrl` uses the `origin` remote, falling back to the
first configured remote when `origin` is absent; it normalizes
`git@github.com:owner/repo.git` and `https://github.com/owner/repo.git` to
`https://github.com/owner/repo`; and with no remote configured, or on a
non-repository, it returns a null url together with a non-empty error
string — every failure path returns a value, never a thrown error. -/
theorem getGitRemoteUrl_spec :
    (∀ (remotes : List Remote) (o : Remote),
      remotes.find? (fun r => r.name == "origin") = some o → o.fetch ≠ "" →
      getGitRemoteUrl (.ok true) (.ok remotes) =
        { url := some (normalizeRemoteUrl o.fetch), error := none }) ∧
    (∀ (remotes : List Remote) (o : Remote),
      remotes.find? (fun r => r.name == "origin") = none →
      remotes.head? = some o → o.fetch ≠ "" →
      getGitRemoteUrl (.ok true) (.ok remotes) =
        { url := some (normalizeRemoteUrl o.fetch), error := none }) ∧
    normalizeRemoteUrl "git@github.com:owner/repo.git"
      = "https://github.com/owner/repo" ∧
    normalizeRemoteUrl "https://github.com/owner/repo.git"
      = "https://github.com/owner/repo" ∧
    (getGitRemoteUrl (.ok true) (.ok []) =
        { url := none, error := some "No remote found" } ∧
      "No remote found" ≠ "") ∧
    (∀ rs, getGitRemoteUrl (.ok false) rs =
        { url := none, error := some "Not a Git repository" } ∧
      "Not a Git repository" ≠ "") := by
  refine ⟨?_, ?_, by decide, by decide, ⟨rfl, by decide⟩, fun rs => ⟨rfl, by decide⟩⟩
  · intro remotes o hfind hfetch
    unfold getGitRemoteUrl
    simp only [hfind, Option.orElse]
    rw [if_neg hfetch]
  · intro remotes o hfind hhead hfetch
    unfold getGitRemoteUrl
    simp only [hfind, Option.orElse, hhead]
    rw [if_neg hfetch]

/-- Witness for C8: `origin` is picked out of `sampleRemotes` (and its SSH
URL normalized), and the only remote of `originlessRemotes` is the
fallback. -/
theorem getGitRemoteUrl_spec_witness :
    getGitRemoteUrl (.ok true) (.ok sampleRemotes) =
      { url := some "https://github.com/owner/repo", error := none } ∧
    getGitRemoteUrl (.ok true) (.ok originlessRemotes) =
      { url := some "https://example.com/own/repo", error := none } := by
  constructor
  · have h := getGitRemoteUrl_spec.1 sampleRemotes
      ⟨"origin", "git@github.com:owner/repo.git"⟩ (by decide) (by decide)
    rw [h]
    have hn := getGitRemoteUrl_spec.2.2.1
    simp only at hn ⊢
    rw [hn]
  · have h := getGitRemoteUrl_spec.2.1 originlessRemotes
      ⟨"backup", "https://example.com/own/repo.git"⟩ (by decide) rfl (by decide)
    rw [h]
    have : normalizeRemoteUrl "https://example.com/own/repo.git"
        = "https://example.com/own/repo" := by decide
    simp only at this ⊢
    rw [this]

end Organizeme
